import Mathlib

/-!
# Verification of the portfolio-risk finance module

Shallow embedding of `src/finance.py` (functions `calc_npv`,
`calc_internal_ror`, `calc_modified_irr`, `return_closest_time`,
`create_flows`, `rolling_rate_of_return`).

Modelling conventions:

* Timestamps (`datetime` columns) are integers counting seconds
  (Python datetimes are totally ordered and subtracted to timedeltas;
  `timedelta(days = k)` is `k * 86400` seconds).
* Cash amounts, prices and share counts are rationals (every Python
  float is a rational; the structural claims do not depend on binary
  rounding).  Discount rates and NPV/IRR values live in `ℝ` because
  `calc_npv` raises a rational to a fractional power (`Real.rpow`).
* A pandas `DataFrame` with `datetime`/`flows` columns is a
  `List CashFlow`; one with `datetime`/`adj_close` columns is a
  `List PricePoint`; the four-column frame built by `create_flows` is a
  `List CashFlowRow`.  `sort_values(by='datetime')` is a stable insertion
  sort on the timestamp.
* Python exceptions are the `Except Err` monad; each `Err` constructor
  names the raising site kind (`ValueError` from the span check,
  `IndexError` from `.iloc` on an empty selection, `IndexError` from
  `.iloc[idx]` past the end, `ZeroDivisionError`, and the key error from
  touching row 0 of an empty frame).
* `scipy.optimize.root` is an external library call; it is modelled as
  an explicit `Solver` parameter returning a final iterate `x` and a
  convergence flag `success` (scipy's `OptimizeResult`).  The reference
  code reads only `x`.
-/

/-- A row of a cash-flow frame: `datetime` (seconds) and `flows` (amount). -/
structure CashFlow where
  datetime : ℤ
  flows : ℚ
deriving DecidableEq, Repr

/-- A row of a price-index frame: `datetime` (seconds) and `adj_close`. -/
structure PricePoint where
  datetime : ℤ
  adj_close : ℚ
deriving DecidableEq, Repr

/-- A row of the frame built by `create_flows`
(`datetime`, `adj_close`, `shares`, `flows`). -/
structure CashFlowRow where
  datetime : ℤ
  adj_close : ℚ
  shares : ℚ
  flows : ℚ
deriving DecidableEq, Repr

/-- Projection of a `create_flows` row onto the columns that the
NPV/IRR functions read. -/
def CashFlowRow.toCashFlow (r : CashFlowRow) : CashFlow :=
  ⟨r.datetime, r.flows⟩

/-- Kinds of Python exceptions raised by the module. -/
inductive Err where
  /-- `ValueError` from the span check in `return_closest_time`. -/
  | lookupOutOfRange
  /-- `IndexError` from `.iloc[0]` / `.iloc[-1]` on an empty selection
  inside `calc_modified_irr`. -/
  | sliceOOB
  /-- `IndexError` from `df_index.iloc[idx]` past the last row in
  `rolling_rate_of_return` (also `.iloc[-1]` on an empty index). -/
  | loopIndexOOB
  /-- `ZeroDivisionError` from `in_amount / len(in_offsets)`. -/
  | zeroDiv
  /-- Key error from reading row 0 of an empty frame in `calc_npv`. -/
  | emptyFrame
deriving DecidableEq, Repr

/-- Row order used by `sort_values(by='datetime')` on a flows frame. -/
def cashFlowLE (a b : CashFlow) : Prop := a.datetime ≤ b.datetime

instance : DecidableRel cashFlowLE := fun a b =>
  inferInstanceAs (Decidable (a.datetime ≤ b.datetime))

instance : IsTotal CashFlow cashFlowLE := ⟨fun a b => Int.le_total a.datetime b.datetime⟩

instance : IsTrans CashFlow cashFlowLE := ⟨fun _ _ _ h h2 => le_trans h h2⟩

/-- Row order used by `sort_values(by='datetime')` on a price frame. -/
def priceLE (a b : PricePoint) : Prop := a.datetime ≤ b.datetime

instance : DecidableRel priceLE := fun a b =>
  inferInstanceAs (Decidable (a.datetime ≤ b.datetime))

instance : IsTotal PricePoint priceLE := ⟨fun a b => Int.le_total a.datetime b.datetime⟩

instance : IsTrans PricePoint priceLE := ⟨fun _ _ _ h h2 => le_trans h h2⟩

/-- `df.sort_values(by='datetime')` on a flows frame (stable, ascending). -/
def sortFlows (l : List CashFlow) : List CashFlow := l.insertionSort cashFlowLE

/-- `df.sort_values(by='datetime')` on a price frame (stable, ascending). -/
def sortPrices (l : List PricePoint) : List PricePoint := l.insertionSort priceLE

/-- Round to the nearest integer, ties to the even integer
(Python's `round`). -/
def roundHalfEven (q : ℚ) : ℤ :=
  if q - ⌊q⌋ < 1 / 2 then ⌊q⌋
  else if (1 : ℚ) / 2 < q - ⌊q⌋ then ⌊q⌋ + 1
  else if ⌊q⌋ % 2 = 0 then ⌊q⌋ else ⌊q⌋ + 1

/-- Python's `round(q, 2)`. -/
def round2 (q : ℚ) : ℚ := (roundHalfEven (q * 100) : ℚ) / 100

/-- Python's `int()` applied to a number: truncation toward zero. -/
def pyInt (q : ℚ) : ℤ := if 0 ≤ q then ⌊q⌋ else ⌈q⌉

/-- `years_delta` of a row in `calc_npv`: elapsed seconds from the
earliest timestamp, divided by `365.25 * 24 * 60 * 60` and rounded to
two decimal places (src/finance.py lines 23-28). -/
def yearsDelta (t0 t : ℤ) : ℚ := round2 (((t - t0 : ℤ) : ℚ) / 31557600)

/-- The minimum of a `datetime` column (pandas `.min()`); only ever
used on non-empty columns. -/
def colMin : List ℤ → ℤ
  | [] => 0
  | [a] => a
  | a :: b :: rest => min a (colMin (b :: rest))

/-- The maximum of a `datetime` column (pandas `.max()`); only ever
used on non-empty columns. -/
def colMax : List ℤ → ℤ
  | [] => 0
  | [a] => a
  | a :: b :: rest => max a (colMax (b :: rest))

/-- The loop body of `calc_npv` (src/finance.py lines 32-37): the
discounted value of one row, given the earliest timestamp `t0`.  When
`1 + discount/100 == 0` the raw amount is used, otherwise
`flows / (1 + discount/100) ** years_delta`. -/
noncomputable def perFlow (t0 : ℤ) (discount : ℝ) (row : CashFlow) : ℝ :=
  if 1 + discount / 100 = 0 then (row.flows : ℝ)
  else (row.flows : ℝ) / (1 + discount / 100) ^ ((yearsDelta t0 row.datetime : ℚ) : ℝ)

/-- `calc_npv` (src/finance.py lines 13-39): sort by timestamp, take
`t0` from row 0, sum the discounted rows.  On an empty frame,
`df_in.datetime[0]` raises. -/
noncomputable def calcNpv (dfIn : List CashFlow) (discount : ℝ) : Except Err ℝ :=
  match sortFlows dfIn with
  | [] => .error .emptyFrame
  | f0 :: rest => .ok (((f0 :: rest).map (perFlow f0.datetime discount)).sum)

/-- The per-flow summation exactly as the specification words it: the
sum, over the rows in their given order, of the discounted value
relative to the series' earliest timestamp. -/
noncomputable def specNpv (s : List CashFlow) (discount : ℝ) : ℝ :=
  (s.map (perFlow (colMin (s.map (·.datetime))) discount)).sum

/-- Result record of `scipy.optimize.root`: the final iterate `x`
(scipy's `soln.x[0]`) and the convergence flag (scipy's
`soln.success`). -/
structure RootResult where
  x : ℝ
  success : Bool

/-- An abstract root finder, standing for
`scipy.optimize.root(f, x0, method='lm')`. -/
def Solver : Type := (ℝ → ℝ) → ℝ → RootResult

/-- The objective `f_partial = partial(calc_npv, df_in)` handed to the
root finder (src/finance.py line 47); total because the solver only
ever evaluates it on the non-empty frames reaching it (on an empty
frame the Python call raises, which `calcInternalRor` models
up front). -/
noncomputable def fObjective (dfIn : List CashFlow) : ℝ → ℝ :=
  fun rate => ((calcNpv dfIn rate).toOption).getD 0

/-- `calc_internal_ror` (src/finance.py lines 42-50): sort the frame,
run the root finder from seed 6, and return `soln.x[0]`.  The
convergence flag of the result is never inspected. -/
noncomputable def calcInternalRor (solver : Solver) (dfIn : List CashFlow) : Except Err ℝ :=
  match sortFlows dfIn with
  | [] => .error .emptyFrame
  | _ :: _ => .ok (solver (fObjective (sortFlows dfIn)) 6).x

/-- The outflow rows `df_in[df_in.flows < 0]`, in frame order. -/
def outflows (s : List CashFlow) : List CashFlow := s.filter (fun f => f.flows < 0)

/-- The inflow rows `df_in[df_in.flows > 0]`, in frame order. -/
def inflows (s : List CashFlow) : List CashFlow := s.filter (fun f => 0 < f.flows)

/-- `calc_modified_irr` (src/finance.py lines 53-76): `begin` is the
first outflow row of the frame as given (`.iloc[0]` of the mask, which
raises on an empty selection), `end` the last inflow row as given
(`.iloc[-1]`); the two-point frame
`{(begin, -total_in), (end, total_out)}` is handed to
`calc_internal_ror`. -/
noncomputable def calcModifiedIrr (solver : Solver) (dfIn : List CashFlow) : Except Err ℝ :=
  match outflows dfIn with
  | [] => .error .sliceOOB
  | o :: _ =>
    match (inflows dfIn).getLast? with
    | none => .error .sliceOOB
    | some e =>
      -- `total_in = -1 * sum(outflows)`, first entry of `flows` is `-total_in`
      calcInternalRor solver
        [⟨o.datetime, -(-1 * ((outflows dfIn).map (·.flows)).sum)⟩,
         ⟨e.datetime, ((inflows dfIn).map (·.flows)).sum⟩]

/-- The Modified-IRR adapter exactly as the specification words it:
`begin` is the *chronologically* first outflow and `end` the
*chronologically* last inflow (realised by filtering the
time-sorted frame). -/
noncomputable def specModifiedIrr (solver : Solver) (dfIn : List CashFlow) : Except Err ℝ :=
  match outflows (sortFlows dfIn) with
  | [] => .error .sliceOOB
  | o :: _ =>
    match (inflows (sortFlows dfIn)).getLast? with
    | none => .error .sliceOOB
    | some e =>
      calcInternalRor solver
        [⟨o.datetime, -(-1 * ((outflows (sortFlows dfIn)).map (·.flows)).sum)⟩,
         ⟨e.datetime, ((inflows (sortFlows dfIn)).map (·.flows)).sum⟩]

/-- The first row attaining the minimal value of `f` (pandas
`df[mask].iloc[0, :]` where `mask` selects the rows whose `f`-value
equals the minimum).  Ties keep the earlier row. -/
def firstMinBy (f : PricePoint → ℤ) : List PricePoint → Option PricePoint
  | [] => none
  | p :: rest => some ((firstMinBy f rest).elim p (fun m => if f p ≤ f m then p else m))

/-- `return_closest_time` (src/finance.py lines 84-102): sort the
index, raise `ValueError` when the target is strictly outside
`[min, max]`, otherwise return the first row of the sorted frame whose
absolute distance to the target is minimal. -/
def returnClosestTime (dfIn : List PricePoint) (dateIn : ℤ) : Except Err PricePoint :=
  match sortPrices dfIn with
  | [] => .error .emptyFrame
  | p :: rest =>
    if dateIn < colMin ((p :: rest).map (·.datetime)) then .error .lookupOutOfRange
    else if colMax ((p :: rest).map (·.datetime)) < dateIn then .error .lookupOutOfRange
    else
      match firstMinBy (fun q => |q.datetime - dateIn|) (p :: rest) with
      | some m => .ok m
      | none => .error .emptyFrame

/-- The `for offset in in_offsets` loop of `create_flows`
(src/finance.py lines 123-126): one nearest-date lookup per offset, in
order, each offset counted in days from the resolved begin date. -/
def lookupRows (dfDates : List PricePoint) (base : ℤ) : List ℤ → Except Err (List PricePoint)
  | [] => .ok []
  | o :: rest => do
    let p ← returnClosestTime dfDates (base + o * 86400)
    let ps ← lookupRows dfDates base rest
    .ok (p :: ps)

/-- `create_flows` (src/finance.py lines 105-145): resolve the begin
date, build one investment row per offset (amount split evenly, shares
bought at the looked-up price), then a single divestment row at the
nearest date to `begin + out_offset` days liquidating all accumulated
shares at that date's price. -/
def createFlows (dfDates : List PricePoint) (inAmount : ℚ) (dtBegin : ℤ)
    (inOffsets : List ℤ) (outOffset : ℤ) : Except Err (List CashFlowRow) := do
  let b ← returnClosestTime dfDates dtBegin
  let inRows ← lookupRows dfDates b.datetime inOffsets
  if inOffsets = [] then
    -- `in_amount / len(in_offsets)` raises ZeroDivisionError
    .error .zeroDiv
  else
    let investAmount : ℚ := inAmount / inOffsets.length
    let dfInFlows : List CashFlowRow :=
      inRows.map (fun p => ⟨p.datetime, p.adj_close, investAmount / p.adj_close, -investAmount⟩)
    let shares : ℚ := (dfInFlows.map (·.shares)).sum
    let dtEnd ← returnClosestTime dfDates (b.datetime + outOffset * 86400)
    .ok (dfInFlows ++ [⟨dtEnd.datetime, dtEnd.adj_close, -shares, shares * dtEnd.adj_close⟩])

/-- The `datetime` of the last row (`df_index.iloc[-1, :]`); only ever
used on non-empty frames. -/
def lastDate (l : List PricePoint) : ℤ :=
  match l.getLast? with
  | some p => p.datetime
  | none => 0

/-- The body of the `while` loop in `rolling_rate_of_return`
(src/finance.py lines 175-177): synthesize a flow series starting at
the current row (invest 100, divest after `wdays` days) and compute its
modified IRR. -/
noncomputable def rollBody (solver : Solver) (dfIndex : List PricePoint)
    (offsets : List ℤ) (wdays : ℤ) (start : PricePoint) : Except Err ℝ :=
  match createFlows dfIndex 100 start.datetime offsets wdays with
  | .error e => .error e
  | .ok flows => calcModifiedIrr solver (flows.map CashFlowRow.toCashFlow)

/-- The `while start + dt_horizon <= dt_end` loop of
`rolling_rate_of_return` (src/finance.py lines 174-180): `start` is the
current row, the remaining rows follow; after a recorded sample the
loop reads the next row, and running past the last row raises
`IndexError`.  A raised exception discards the rows recorded so far,
exactly as in Python. -/
noncomputable def rollLoop (solver : Solver) (dfIndex : List PricePoint)
    (offsets : List ℤ) (dtEnd : ℤ) (wdays : ℤ) :
    PricePoint → List PricePoint → Except Err (List (ℤ × ℝ))
  | start, [] =>
    if start.datetime + wdays * 86400 ≤ dtEnd then
      match rollBody solver dfIndex offsets wdays start with
      | .error e => .error e
      | .ok _ => .error .loopIndexOOB
    else .ok []
  | start, next :: rest2 =>
    if start.datetime + wdays * 86400 ≤ dtEnd then
      match rollBody solver dfIndex offsets wdays start with
      | .error e => .error e
      | .ok rate =>
        match rollLoop solver dfIndex offsets dtEnd wdays next rest2 with
        | .error e => .error e
        | .ok tail => .ok ((start.datetime, rate) :: tail)
    else .ok []

/-- `rolling_rate_of_return` (src/finance.py lines 148-187): walk the
index rows in order, and for every start date within the horizon of the
last date synthesize a flow series (invest 100, divest after
`int(horizon * 365.25)` days) and record its modified IRR.  The
histogram emitted alongside the pairs is plotting output, which the
specification places out of scope.  The unused `label` argument feeds
only that histogram. -/
noncomputable def rollingRateOfReturn (solver : Solver) (dfIndex : List PricePoint)
    (offsets : List ℤ) (label : String) (horizon : ℚ) : Except Err (List (ℤ × ℝ)) :=
  match dfIndex with
  | [] => .error .loopIndexOOB
  | first :: rest =>
    rollLoop solver dfIndex offsets (lastDate dfIndex)
      (pyInt (horizon * (1461 / 4))) first rest

/-! ## Sorting lemmas -/

lemma sortFlows_perm (l : List CashFlow) : List.Perm (sortFlows l) l :=
  List.perm_insertionSort cashFlowLE l

lemma sortFlows_sorted (l : List CashFlow) : List.Sorted cashFlowLE (sortFlows l) :=
  List.sorted_insertionSort cashFlowLE l

lemma sortFlows_eq_self {l : List CashFlow} (h : List.Sorted cashFlowLE l) :
    sortFlows l = l :=
  h.insertionSort_eq

lemma sortFlows_ne_nil {l : List CashFlow} (h : l ≠ []) : sortFlows l ≠ [] := by
  intro hs
  have hp := sortFlows_perm l
  rw [hs] at hp
  exact h hp.symm.eq_nil

lemma sortPrices_perm (l : List PricePoint) : List.Perm (sortPrices l) l :=
  List.perm_insertionSort priceLE l

lemma sortPrices_sorted (l : List PricePoint) : List.Sorted priceLE (sortPrices l) :=
  List.sorted_insertionSort priceLE l

lemma sortPrices_ne_nil {l : List PricePoint} (h : l ≠ []) : sortPrices l ≠ [] := by
  intro hs
  have hp := sortPrices_perm l
  rw [hs] at hp
  exact h hp.symm.eq_nil

/-! ## Column minimum / maximum lemmas -/

lemma colMin_mem : ∀ {l : List ℤ}, l ≠ [] → colMin l ∈ l
  | [], h => absurd rfl h
  | [a], _ => by simp [colMin]
  | a :: b :: rest, _ => by
    rcases min_cases a (colMin (b :: rest)) with ⟨h1, _⟩ | ⟨h1, _⟩
    · simp [colMin, h1]
    · have := colMin_mem (l := b :: rest) (by simp)
      simp only [colMin, h1]
      exact List.mem_cons_of_mem a this

lemma colMin_le : ∀ {l : List ℤ} {x : ℤ}, x ∈ l → colMin l ≤ x
  | [], _, h => absurd h (List.not_mem_nil _)
  | [a], x, h => by
    rcases List.mem_singleton.mp h with rfl
    simp [colMin]
  | a :: b :: rest, x, h => by
    rcases List.mem_cons.mp h with rfl | h2
    · simpa [colMin] using min_le_left _ _
    · exact le_trans (by simpa [colMin] using min_le_right a (colMin (b :: rest)))
        (colMin_le h2)

lemma colMax_mem : ∀ {l : List ℤ}, l ≠ [] → colMax l ∈ l
  | [], h => absurd rfl h
  | [a], _ => by simp [colMax]
  | a :: b :: rest, _ => by
    rcases max_cases a (colMax (b :: rest)) with ⟨h1, _⟩ | ⟨h1, _⟩
    · simp [colMax, h1]
    · have := colMax_mem (l := b :: rest) (by simp)
      simp only [colMax, h1]
      exact List.mem_cons_of_mem a this

lemma le_colMax : ∀ {l : List ℤ} {x : ℤ}, x ∈ l → x ≤ colMax l
  | [], _, h => absurd h (List.not_mem_nil _)
  | [a], x, h => by
    rcases List.mem_singleton.mp h with rfl
    simp [colMax]
  | a :: b :: rest, x, h => by
    rcases List.mem_cons.mp h with rfl | h2
    · simpa [colMax] using le_max_left _ _
    · exact le_trans (le_colMax h2)
        (by simpa [colMax] using le_max_right a (colMax (b :: rest)))

lemma colMin_congr_perm {l l2 : List ℤ} (hne : l ≠ []) (h : List.Perm l l2) :
    colMin l = colMin l2 := by
  have hne2 : l2 ≠ [] := by
    intro h2
    rw [h2] at h
    exact hne h.eq_nil
  exact le_antisymm (colMin_le (h.mem_iff.mpr (colMin_mem hne2)))
    (colMin_le (h.mem_iff.mp (colMin_mem hne)))

lemma colMax_congr_perm {l l2 : List ℤ} (hne : l ≠ []) (h : List.Perm l l2) :
    colMax l = colMax l2 := by
  have hne2 : l2 ≠ [] := by
    intro h2
    rw [h2] at h
    exact hne h.eq_nil
  exact le_antisymm (le_colMax (h.mem_iff.mp (colMax_mem hne)))
    (le_colMax (h.mem_iff.mpr (colMax_mem hne2)))

/-! ## NPV lemmas -/

lemma specNpv_congr_perm {s s2 : List CashFlow} (h : List.Perm s s2) (d : ℝ) :
    specNpv s d = specNpv s2 d := by
  rcases eq_or_ne s [] with rfl | hne
  · rw [h.symm.eq_nil]
  · have hne2 : s2 ≠ [] := by
      intro h2
      rw [h2] at h
      exact hne h.eq_nil
    have hmin : colMin (s.map (·.datetime)) = colMin (s2.map (·.datetime)) :=
      colMin_congr_perm (by simpa using hne) (h.map _)
    have hsum : ∀ m : ℤ, (s.map (perFlow m d)).sum = (s2.map (perFlow m d)).sum :=
      fun m => (h.map (perFlow m d)).sum_eq
    unfold specNpv
    rw [hmin, hsum]

lemma calcNpv_eq_specNpv {s : List CashFlow} (hne : s ≠ []) (d : ℝ) :
    calcNpv s d = .ok (specNpv s d) := by
  cases h : sortFlows s with
  | nil => exact absurd h (sortFlows_ne_nil hne)
  | cons f0 rest =>
    have hsorted : List.Sorted cashFlowLE (f0 :: rest) := h ▸ sortFlows_sorted s
    have hperm : List.Perm (f0 :: rest) s := h ▸ sortFlows_perm s
    have hmin : f0.datetime = colMin ((f0 :: rest).map (·.datetime)) := by
      refine le_antisymm ?_ (colMin_le (by simp))
      have hm := colMin_mem (l := (f0 :: rest).map (·.datetime)) (by simp)
      rcases List.mem_map.mp hm with ⟨q, hq, hqe⟩
      rcases List.mem_cons.mp hq with rfl | hq2
      · exact le_of_eq hqe
      · exact le_trans (List.rel_of_sorted_cons hsorted q hq2 : f0.datetime ≤ q.datetime)
          (le_of_eq hqe)
    have : calcNpv s d = .ok (((f0 :: rest).map (perFlow f0.datetime d)).sum) := by
      simp only [calcNpv, h]
    rw [this, hmin]
    exact congrArg Except.ok (specNpv_congr_perm hperm d)

lemma fObjective_eq_specNpv {s : List CashFlow} (hne : s ≠ []) (r : ℝ) :
    fObjective s r = specNpv s r := by
  simp [fObjective, calcNpv_eq_specNpv hne, Except.toOption]

lemma calcInternalRor_eq {s : List CashFlow} (hne : s ≠ []) (solver : Solver) :
    calcInternalRor solver s = .ok (solver (fObjective (sortFlows s)) 6).x := by
  cases h : sortFlows s with
  | nil => exact absurd h (sortFlows_ne_nil hne)
  | cons f0 rest => simp only [calcInternalRor, h]

lemma calcInternalRor_isOk {s : List CashFlow} (hne : s ≠ []) (solver : Solver) :
    ∃ v, calcInternalRor solver s = .ok v :=
  ⟨_, calcInternalRor_eq hne solver⟩

/-! ## First-argmin lemmas -/

lemma firstMinBy_cons (f : PricePoint → ℤ) (p : PricePoint) (rest : List PricePoint) :
    firstMinBy f (p :: rest) =
      some ((firstMinBy f rest).elim p (fun m => if f p ≤ f m then p else m)) := rfl

lemma firstMinBy_eq_none (f : PricePoint → ℤ) :
    ∀ {l : List PricePoint}, firstMinBy f l = none → l = []
  | [], _ => rfl
  | _ :: _, h => by rw [firstMinBy_cons] at h; cases h

lemma firstMinBy_isSome (f : PricePoint → ℤ) {l : List PricePoint} (hne : l ≠ []) :
    ∃ p, firstMinBy f l = some p := by
  cases l with
  | nil => exact absurd rfl hne
  | cons a rest => exact ⟨_, firstMinBy_cons f a rest⟩

lemma firstMinBy_mem (f : PricePoint → ℤ) {l : List PricePoint} :
    ∀ {p : PricePoint}, firstMinBy f l = some p → p ∈ l := by
  induction l with
  | nil => intro p h; cases h
  | cons a rest ih =>
    intro p h
    rw [firstMinBy_cons, Option.some.injEq] at h
    cases hm : firstMinBy f rest with
    | none =>
      rw [hm] at h
      simp only [Option.elim_none] at h
      exact h ▸ List.mem_cons_self a rest
    | some m =>
      rw [hm] at h
      simp only [Option.elim_some] at h
      by_cases hle : f a ≤ f m
      · rw [if_pos hle] at h
        exact h ▸ List.mem_cons_self a rest
      · rw [if_neg hle] at h
        exact h ▸ List.mem_cons_of_mem a (ih hm)

lemma firstMinBy_le (f : PricePoint → ℤ) {l : List PricePoint} :
    ∀ {p : PricePoint}, firstMinBy f l = some p → ∀ q ∈ l, f p ≤ f q := by
  induction l with
  | nil => intro p h; cases h
  | cons a rest ih =>
    intro p h q hq
    rw [firstMinBy_cons, Option.some.injEq] at h
    cases hm : firstMinBy f rest with
    | none =>
      rw [hm] at h
      simp only [Option.elim_none] at h
      rcases List.mem_cons.mp hq with rfl | hq2
      · exact le_of_eq (congrArg f h.symm)
      · rw [firstMinBy_eq_none f hm] at hq2
        cases hq2
    | some m =>
      rw [hm] at h
      simp only [Option.elim_some] at h
      by_cases hle : f a ≤ f m
      · rw [if_pos hle] at h
        subst h
        rcases List.mem_cons.mp hq with rfl | hq2
        · exact le_refl _
        · exact le_trans hle (ih hm q hq2)
      · rw [if_neg hle] at h
        subst h
        rcases List.mem_cons.mp hq with rfl | hq2
        · exact le_of_lt (lt_of_not_le hle)
        · exact ih hm q hq2

lemma firstMinBy_split (f : PricePoint → ℤ) {l : List PricePoint} :
    ∀ {p : PricePoint}, firstMinBy f l = some p →
      ∃ l1 l2, l = l1 ++ p :: l2 ∧ ∀ q ∈ l1, f p < f q := by
  induction l with
  | nil => intro p h; cases h
  | cons a rest ih =>
    intro p h
    rw [firstMinBy_cons, Option.some.injEq] at h
    cases hm : firstMinBy f rest with
    | none =>
      rw [hm] at h
      simp only [Option.elim_none] at h
      subst h
      exact ⟨[], rest, rfl, by simp⟩
    | some m =>
      rw [hm] at h
      simp only [Option.elim_some] at h
      by_cases hle : f a ≤ f m
      · rw [if_pos hle] at h
        subst h
        exact ⟨[], rest, rfl, by simp⟩
      · rw [if_neg hle] at h
        subst h
        rcases ih hm with ⟨l1, l2, he, hlt⟩
        refine ⟨a :: l1, l2, ?_, ?_⟩
        · rw [List.cons_append, ← he]
        · intro q hq
          rcases List.mem_cons.mp hq with rfl | hq2
          · exact lt_of_not_le hle
          · exact hlt q hq2

/-! ## Nearest-date lookup lemmas -/

lemma returnClosestTime_ok_of_mem_span {idx : List PricePoint} (hne : idx ≠ []) {t : ℤ}
    (h1 : colMin (idx.map (·.datetime)) ≤ t) (h2 : t ≤ colMax (idx.map (·.datetime))) :
    ∃ p, returnClosestTime idx t = .ok p ∧ p ∈ idx ∧
      (∀ q ∈ idx, |p.datetime - t| ≤ |q.datetime - t|) ∧
      (∀ q ∈ idx, |q.datetime - t| = |p.datetime - t| → p.datetime ≤ q.datetime) := by
  have hperm : List.Perm (sortPrices idx) idx := sortPrices_perm idx
  have hs : sortPrices idx ≠ [] := sortPrices_ne_nil hne
  cases hseq : sortPrices idx with
  | nil => exact absurd hseq hs
  | cons p0 rest =>
    rw [hseq] at hperm
    have hsorted : List.Sorted priceLE (p0 :: rest) := hseq ▸ sortPrices_sorted idx
    have hmapperm : List.Perm ((p0 :: rest).map (·.datetime)) (idx.map (·.datetime)) :=
      hperm.map _
    have hminEq : colMin ((p0 :: rest).map (·.datetime)) = colMin (idx.map (·.datetime)) :=
      colMin_congr_perm (by simp) hmapperm
    have hmaxEq : colMax ((p0 :: rest).map (·.datetime)) = colMax (idx.map (·.datetime)) :=
      colMax_congr_perm (by simp) hmapperm
    rcases firstMinBy_isSome (fun q => |q.datetime - t|) (l := p0 :: rest) (by simp)
      with ⟨m, hm⟩
    refine ⟨m, ?_, ?_, ?_, ?_⟩
    · simp only [returnClosestTime, hseq, hm]
      rw [if_neg (not_lt.mpr (hminEq ▸ h1)), if_neg (not_lt.mpr (hmaxEq ▸ h2))]
    · exact hperm.mem_iff.mp (firstMinBy_mem _ hm)
    · intro q hq
      exact firstMinBy_le _ hm q (hperm.mem_iff.mpr hq)
    · intro q hq he
      rcases firstMinBy_split _ hm with ⟨l1, l2, heq, hlt⟩
      have hq2 : q ∈ l1 ++ m :: l2 := heq ▸ hperm.mem_iff.mpr hq
      rcases List.mem_append.mp hq2 with hl1 | hml2
      · exact absurd he (ne_of_gt (hlt q hl1))
      · rcases List.mem_cons.mp hml2 with rfl | hl2
        · exact le_refl _
        · have hpw : List.Pairwise priceLE (l1 ++ m :: l2) := heq ▸ hsorted
          exact (List.pairwise_cons.mp (List.pairwise_append.mp hpw).2.1).1 q hl2

lemma returnClosestTime_err_of_outside {idx : List PricePoint} (hne : idx ≠ []) {t : ℤ}
    (h : t < colMin (idx.map (·.datetime)) ∨ colMax (idx.map (·.datetime)) < t) :
    returnClosestTime idx t = .error .lookupOutOfRange := by
  have hs : sortPrices idx ≠ [] := sortPrices_ne_nil hne
  cases hseq : sortPrices idx with
  | nil => exact absurd hseq hs
  | cons p0 rest =>
    have hperm : List.Perm (p0 :: rest) idx := hseq ▸ sortPrices_perm idx
    have hmapperm : List.Perm ((p0 :: rest).map (·.datetime)) (idx.map (·.datetime)) :=
      hperm.map _
    have hminEq : colMin ((p0 :: rest).map (·.datetime)) = colMin (idx.map (·.datetime)) :=
      colMin_congr_perm (by simp) hmapperm
    have hmaxEq : colMax ((p0 :: rest).map (·.datetime)) = colMax (idx.map (·.datetime)) :=
      colMax_congr_perm (by simp) hmapperm
    by_cases hlt : t < colMin ((p0 :: rest).map (·.datetime))
    · simp only [returnClosestTime, hseq]
      rw [if_pos hlt]
    · have hgt : colMax ((p0 :: rest).map (·.datetime)) < t := by
        rcases h with h | h
        · exact absurd (hminEq ▸ h) hlt
        · exact hmaxEq ▸ h
      simp only [returnClosestTime, hseq]
      rw [if_neg hlt, if_pos hgt]

lemma returnClosestTime_member {idx : List PricePoint} {p : PricePoint} (hp : p ∈ idx) :
    ∃ b, returnClosestTime idx p.datetime = .ok b ∧ b ∈ idx ∧ b.datetime = p.datetime := by
  have hne : idx ≠ [] := List.ne_nil_of_mem hp
  have hmem : p.datetime ∈ idx.map (·.datetime) := List.mem_map_of_mem _ hp
  rcases returnClosestTime_ok_of_mem_span hne (colMin_le hmem) (le_colMax hmem)
    with ⟨b, hok, hbmem, hmin, _⟩
  refine ⟨b, hok, hbmem, ?_⟩
  have := hmin p hp
  simp only [sub_self, abs_zero] at this
  have h0 : |b.datetime - p.datetime| = 0 := le_antisymm this (abs_nonneg _)
  have := abs_eq_zero.mp h0
  linarith [this]

/-! ## Modified-IRR lemmas -/

lemma calcModifiedIrr_eq {s : List CashFlow} {o e : CashFlow} (solver : Solver)
    (ho : (outflows s).head? = some o) (he : (inflows s).getLast? = some e) :
    calcModifiedIrr solver s =
      calcInternalRor solver
        [⟨o.datetime, ((outflows s).map (·.flows)).sum⟩,
         ⟨e.datetime, ((inflows s).map (·.flows)).sum⟩] := by
  cases hout : outflows s with
  | nil => rw [hout] at ho; cases ho
  | cons o2 os =>
    rw [hout, List.head?_cons, Option.some.injEq] at ho
    subst ho
    simp only [calcModifiedIrr, hout, he, neg_mul, one_mul, neg_neg]

lemma calcModifiedIrr_sorted_eq {s : List CashFlow} (solver : Solver)
    (hsort : List.Sorted cashFlowLE s) :
    calcModifiedIrr solver s = specModifiedIrr solver s := by
  unfold calcModifiedIrr specModifiedIrr
  rw [sortFlows_eq_self hsort]

/-! ## Flow-synthesis lemmas -/

lemma lookupRows_ok {idx : List PricePoint} {base : ℤ} {offs : List ℤ}
    (h : ∀ o ∈ offs, ∃ p, returnClosestTime idx (base + o * 86400) = .ok p ∧ p ∈ idx) :
    ∃ rows, lookupRows idx base offs = .ok rows ∧ rows.length = offs.length ∧
      ∀ p ∈ rows, p ∈ idx := by
  induction offs with
  | nil => exact ⟨[], rfl, rfl, by simp⟩
  | cons o os ih =>
    rcases h o (List.mem_cons_self o os) with ⟨p, hp, hpm⟩
    rcases ih (fun o2 ho2 => h o2 (List.mem_cons_of_mem o ho2)) with ⟨rows, hr, hlen, hmem⟩
    refine ⟨p :: rows, ?_, by simp [hlen], ?_⟩
    · simp only [lookupRows, hp, hr]
      rfl
    · intro q hq
      rcases List.mem_cons.mp hq with rfl | hq2
      · exact hpm
      · exact hmem q hq2

lemma createFlows_eq (amt : ℚ) {idx rows : List PricePoint} {b e : PricePoint}
    {t out : ℤ} {offs : List ℤ}
    (hb : returnClosestTime idx t = .ok b)
    (hrows : lookupRows idx b.datetime offs = .ok rows)
    (hoffs : offs ≠ [])
    (he : returnClosestTime idx (b.datetime + out * 86400) = .ok e) :
    createFlows idx amt t offs out = .ok
      ((rows.map fun p => ⟨p.datetime, p.adj_close, (amt / offs.length) / p.adj_close,
          -(amt / offs.length)⟩) ++
        [⟨e.datetime, e.adj_close,
          -((rows.map fun p => (amt / offs.length) / p.adj_close).sum),
          ((rows.map fun p => (amt / offs.length) / p.adj_close).sum) * e.adj_close⟩]) := by
  have hbind : ∀ {α β : Type} (a : α) (f : α → Except Err β),
      (Except.ok a : Except Err α) >>= f = f a := fun _ _ => rfl
  simp only [createFlows, hb, hrows, he, hbind, if_neg hoffs, List.map_map]
  rfl

/-! ## Rolling-scanner lemmas -/

lemma lastDate_eq_getLast {l : List PricePoint} (hne : l ≠ []) :
    ∃ p ∈ l, p.datetime = lastDate l := by
  refine ⟨l.getLast hne, List.getLast_mem hne, ?_⟩
  unfold lastDate
  rw [List.getLast?_eq_getLast l hne]

lemma le_lastDate_of_sorted {l : List PricePoint} (hpw : List.Pairwise priceLE l)
    {p : PricePoint} (hp : p ∈ l) : p.datetime ≤ lastDate l := by
  induction l with
  | nil => cases hp
  | cons a rest ih =>
    cases rest with
    | nil =>
      rcases List.mem_singleton.mp hp with rfl
      unfold lastDate
      simp
    | cons b rest2 =>
      have hlast : lastDate (a :: b :: rest2) = lastDate (b :: rest2) := by
        unfold lastDate
        rw [List.getLast?_cons_cons]
      rw [hlast]
      rcases List.mem_cons.mp hp with rfl | hp2
      · rcases lastDate_eq_getLast (l := b :: rest2) (by simp) with ⟨q, hq, hqd⟩
        calc p.datetime ≤ q.datetime := (List.pairwise_cons.mp hpw).1 q hq
          _ = lastDate (b :: rest2) := hqd
      · exact ih (List.pairwise_cons.mp hpw).2 hp2

lemma lastDate_le_colMax {l : List PricePoint} (hne : l ≠ []) :
    lastDate l ≤ colMax (l.map (·.datetime)) := by
  rcases lastDate_eq_getLast hne with ⟨p, hp, hpd⟩
  exact hpd ▸ le_colMax (List.mem_map_of_mem _ hp)

lemma rollBody_ok {idx : List PricePoint} {offs : List ℤ} {w : ℤ} {start : PricePoint}
    (solver : Solver)
    (hpos : ∀ p ∈ idx, 0 < p.adj_close)
    (hw : 0 ≤ w)
    (hoffs : offs ≠ [])
    (hbound : ∀ o ∈ offs, 0 ≤ o ∧ o ≤ w)
    (hstart : start ∈ idx)
    (hcond : start.datetime + w * 86400 ≤ lastDate idx) :
    ∃ r, rollBody solver idx offs w start = .ok r := by
  have hne : idx ≠ [] := List.ne_nil_of_mem hstart
  have hsd : start.datetime ∈ idx.map (·.datetime) := List.mem_map_of_mem _ hstart
  rcases returnClosestTime_member hstart with ⟨b, hb, _, hbdt⟩
  have hupper : start.datetime + w * 86400 ≤ colMax (idx.map (·.datetime)) :=
    le_trans hcond (lastDate_le_colMax hne)
  have hspan : ∀ o ∈ offs, ∃ p, returnClosestTime idx (b.datetime + o * 86400) = .ok p ∧
      p ∈ idx := by
    intro o ho
    rcases hbound o ho with ⟨ho1, ho2⟩
    have h1 : colMin (idx.map (·.datetime)) ≤ b.datetime + o * 86400 := by
      rw [hbdt]
      have := colMin_le hsd
      nlinarith
    have h2 : b.datetime + o * 86400 ≤ colMax (idx.map (·.datetime)) := by
      rw [hbdt]
      nlinarith
    rcases returnClosestTime_ok_of_mem_span hne h1 h2 with ⟨p, hok, hpm, _, _⟩
    exact ⟨p, hok, hpm⟩
  rcases lookupRows_ok hspan with ⟨rows, hrows, hlen, hrmem⟩
  have h1e : colMin (idx.map (·.datetime)) ≤ b.datetime + w * 86400 := by
    rw [hbdt]
    have := colMin_le hsd
    nlinarith
  have h2e : b.datetime + w * 86400 ≤ colMax (idx.map (·.datetime)) := by
    rw [hbdt]
    exact hupper
  rcases returnClosestTime_ok_of_mem_span hne h1e h2e with ⟨e, heok, hemem, _, _⟩
  have hcf := createFlows_eq 100 hb hrows hoffs heok
  have hrowsne : rows ≠ [] := by
    intro h0
    rw [h0] at hlen
    exact hoffs (List.length_eq_zero.mp hlen.symm)
  have hia : 0 < (100 : ℚ) / offs.length := by
    apply div_pos (by norm_num)
    exact_mod_cast List.length_pos.mpr hoffs
  set ia : ℚ := (100 : ℚ) / offs.length with hia_def
  set S : ℚ := ((rows.map fun p : PricePoint => ia / p.adj_close).sum) with hS_def
  have hS : 0 < S := by
    rw [hS_def]
    apply List.sum_pos
    · intro x hx
      rcases List.mem_map.mp hx with ⟨p, hpmem, rfl⟩
      exact div_pos hia (hpos p (hrmem p hpmem))
    · simpa using hrowsne
  have hSe : 0 < S * e.adj_close := mul_pos hS (hpos e hemem)
  have hmapped :
      (((rows.map fun p : PricePoint => (⟨p.datetime, p.adj_close, ia / p.adj_close, -ia⟩ : CashFlowRow)) ++
        ([⟨e.datetime, e.adj_close, -S, S * e.adj_close⟩] : List CashFlowRow)).map CashFlowRow.toCashFlow)
      = (rows.map fun p : PricePoint => (⟨p.datetime, -ia⟩ : CashFlow)) ++ ([⟨e.datetime, S * e.adj_close⟩] : List CashFlow) := by
    simp only [List.map_append, List.map_map]
    rfl
  have hout : outflows ((rows.map fun p : PricePoint => (⟨p.datetime, -ia⟩ : CashFlow)) ++
      ([⟨e.datetime, S * e.adj_close⟩] : List CashFlow)) = rows.map fun p : PricePoint => (⟨p.datetime, -ia⟩ : CashFlow) := by
    unfold outflows
    rw [List.filter_append]
    have hfst : (rows.map fun p : PricePoint => (⟨p.datetime, -ia⟩ : CashFlow)).filter
        (fun f => f.flows < 0) = rows.map fun p : PricePoint => (⟨p.datetime, -ia⟩ : CashFlow) := by
      apply List.filter_eq_self.mpr
      intro x hx
      rcases List.mem_map.mp hx with ⟨p, _, rfl⟩
      simpa using neg_neg_of_pos hia
    have hsnd : ([(⟨e.datetime, S * e.adj_close⟩ : CashFlow)]).filter
        (fun f => f.flows < 0) = [] := by
      simp [not_lt.mpr (le_of_lt hSe)]
    rw [hfst, hsnd, List.append_nil]
  have hin : inflows ((rows.map fun p : PricePoint => (⟨p.datetime, -ia⟩ : CashFlow)) ++
      ([⟨e.datetime, S * e.adj_close⟩] : List CashFlow)) = ([⟨e.datetime, S * e.adj_close⟩] : List CashFlow) := by
    unfold inflows
    rw [List.filter_append]
    have hfst : (rows.map fun p : PricePoint => (⟨p.datetime, -ia⟩ : CashFlow)).filter
        (fun f => 0 < f.flows) = [] := by
      apply List.filter_eq_nil_iff.mpr
      intro x hx
      rcases List.mem_map.mp hx with ⟨p, _, rfl⟩
      simpa using le_of_lt (neg_neg_of_pos hia)
    have hsnd : ([(⟨e.datetime, S * e.adj_close⟩ : CashFlow)]).filter
        (fun f => 0 < f.flows) = [(⟨e.datetime, S * e.adj_close⟩ : CashFlow)] := by
      simp [hSe]
    rw [hfst, hsnd, List.nil_append]
  cases hrows_eq : rows with
  | nil => exact absurd hrows_eq hrowsne
  | cons r0 rt =>
    have hhead : (outflows ((rows.map fun p : PricePoint => (⟨p.datetime, -ia⟩ : CashFlow)) ++
        ([⟨e.datetime, S * e.adj_close⟩] : List CashFlow))).head? = some ⟨r0.datetime, -ia⟩ := by
      rw [hout, hrows_eq]
      simp
    have hlastq : (inflows ((rows.map fun p : PricePoint => (⟨p.datetime, -ia⟩ : CashFlow)) ++
        ([⟨e.datetime, S * e.adj_close⟩] : List CashFlow))).getLast? = some ⟨e.datetime, S * e.adj_close⟩ := by
      rw [hin]
      rfl
    have hmirr := calcModifiedIrr_eq solver hhead hlastq
    rcases calcInternalRor_isOk (s :=
        [⟨(⟨r0.datetime, -ia⟩ : CashFlow).datetime,
          ((outflows ((rows.map fun p : PricePoint => (⟨p.datetime, -ia⟩ : CashFlow)) ++
            ([⟨e.datetime, S * e.adj_close⟩] : List CashFlow))).map (·.flows)).sum⟩,
         ⟨(⟨e.datetime, S * e.adj_close⟩ : CashFlow).datetime,
          ((inflows ((rows.map fun p : PricePoint => (⟨p.datetime, -ia⟩ : CashFlow)) ++
            ([⟨e.datetime, S * e.adj_close⟩] : List CashFlow))).map (·.flows)).sum⟩])
      (by simp) solver with ⟨v, hv⟩
    refine ⟨v, ?_⟩
    simp only [rollBody, hcf]
    rw [hmapped, hmirr]
    exact hv

lemma rollBody_inv {solver : Solver} {idx : List PricePoint} {offs : List ℤ}
    {w : ℤ} {start : PricePoint} {r : ℝ}
    (h : rollBody solver idx offs w start = .ok r) :
    ∃ fr, createFlows idx 100 start.datetime offs w = .ok fr ∧
      calcModifiedIrr solver (fr.map CashFlowRow.toCashFlow) = .ok r := by
  unfold rollBody at h
  cases hcf : createFlows idx 100 start.datetime offs w with
  | error e => rw [hcf] at h; cases h
  | ok fr => rw [hcf] at h; exact ⟨fr, rfl, h⟩

lemma suffix_tail {idx : List PricePoint} {start next : PricePoint}
    {rest2 : List PricePoint} (h : (start :: next :: rest2) <:+ idx) :
    (next :: rest2) <:+ idx := by
  rcases h with ⟨t, ht⟩
  exact ⟨t ++ [start], by simpa using ht⟩

lemma rollLoop_spec {idx : List PricePoint} {offs : List ℤ} {w : ℤ} (solver : Solver)
    (hpw : List.Pairwise priceLE idx)
    (hpos : ∀ p ∈ idx, 0 < p.adj_close)
    (hw : 1 ≤ w)
    (hoffs : offs ≠ [])
    (hbound : ∀ o ∈ offs, 0 ≤ o ∧ o ≤ w) :
    ∀ (rest : List PricePoint) (start : PricePoint),
      (start :: rest) <:+ idx →
      ∃ pairs, rollLoop solver idx offs (lastDate idx) w start rest = .ok pairs ∧
        pairs.map Prod.fst =
          ((start :: rest).filter
            (fun p => p.datetime + w * 86400 ≤ lastDate idx)).map (·.datetime) ∧
        ∀ pr ∈ pairs, ∃ fr, createFlows idx 100 pr.1 offs w = .ok fr ∧
          calcModifiedIrr solver (fr.map CashFlowRow.toCashFlow) = .ok pr.2 := by
  intro rest
  induction rest with
  | nil =>
    intro start hsuf
    have hlast : start.datetime = lastDate idx := by
      rcases hsuf with ⟨t, ht⟩
      unfold lastDate
      rw [← ht, List.getLast?_concat]
    have hcond : ¬(start.datetime + w * 86400 ≤ lastDate idx) := by
      rw [← hlast]
      intro hle
      nlinarith
    refine ⟨[], ?_, ?_, by simp⟩
    · simp only [rollLoop, if_neg hcond]
    · simp [hcond]
  | cons next rest2 ih =>
    intro start hsuf
    have hstart_mem : start ∈ idx := hsuf.sublist.subset (List.mem_cons_self _ _)
    by_cases hcond : start.datetime + w * 86400 ≤ lastDate idx
    · rcases rollBody_ok solver hpos (le_trans zero_le_one hw) hoffs hbound hstart_mem hcond
        with ⟨r, hr⟩
      rcases ih next (suffix_tail hsuf) with ⟨pairs, hloop, hmap, hall⟩
      refine ⟨(start.datetime, r) :: pairs, ?_, ?_, ?_⟩
      · simp only [rollLoop, if_pos hcond, hr, hloop]
      · simp [List.filter_cons, hcond, hmap]
      · intro pr hpr
        rcases List.mem_cons.mp hpr with rfl | hpr2
        · exact rollBody_inv hr
        · exact hall pr hpr2
    · have hfail : ∀ q ∈ start :: next :: rest2,
          ¬(q.datetime + w * 86400 ≤ lastDate idx) := by
        intro q hq
        rcases List.mem_cons.mp hq with rfl | hq2
        · exact hcond
        · have hsub : List.Pairwise priceLE (start :: next :: rest2) :=
            hpw.sublist hsuf.sublist
          have hle : start.datetime ≤ q.datetime :=
            (List.pairwise_cons.mp hsub).1 q hq2
          intro hq3
          exact hcond (le_trans (by linarith) hq3)
      refine ⟨[], ?_, ?_, by simp⟩
      · simp only [rollLoop, if_neg hcond]
      · have : (start :: next :: rest2).filter
            (fun p => p.datetime + w * 86400 ≤ lastDate idx) = [] := by
          apply List.filter_eq_nil_iff.mpr
          intro q hq
          simpa using hfail q hq
        rw [this]
        simp

lemma rollLoop_oob {idx : List PricePoint} {offs : List ℤ} (solver : Solver)
    (hpw : List.Pairwise priceLE idx)
    (hpos : ∀ p ∈ idx, 0 < p.adj_close)
    (hoffs : offs ≠ [])
    (hzero : ∀ o ∈ offs, o = 0) :
    ∀ (rest : List PricePoint) (start : PricePoint),
      (start :: rest) <:+ idx →
      rollLoop solver idx offs (lastDate idx) 0 start rest = .error .loopIndexOOB := by
  intro rest
  induction rest with
  | nil =>
    intro start hsuf
    have hmem : start ∈ idx := hsuf.sublist.subset (List.mem_cons_self _ _)
    have hcond : start.datetime + 0 * 86400 ≤ lastDate idx := by
      simpa using le_lastDate_of_sorted hpw hmem
    rcases rollBody_ok solver hpos le_rfl hoffs
      (fun o ho => ⟨le_of_eq (hzero o ho).symm, le_of_eq (hzero o ho)⟩) hmem
      (by simpa using hcond) with ⟨r, hr⟩
    simp only [rollLoop, if_pos hcond, hr]
  | cons next rest2 ih =>
    intro start hsuf
    have hmem : start ∈ idx := hsuf.sublist.subset (List.mem_cons_self _ _)
    have hcond : start.datetime + 0 * 86400 ≤ lastDate idx := by
      simpa using le_lastDate_of_sorted hpw hmem
    rcases rollBody_ok solver hpos le_rfl hoffs
      (fun o ho => ⟨le_of_eq (hzero o ho).symm, le_of_eq (hzero o ho)⟩) hmem
      (by simpa using hcond) with ⟨r, hr⟩
    simp only [rollLoop, if_pos hcond, hr, ih next (suffix_tail hsuf)]

/-! ## Claim theorems -/

lemma yearsDelta_self (t : ℤ) : yearsDelta t t = 0 := by
  unfold yearsDelta
  rw [sub_self]
  norm_num
  with_unfolding_all rfl

/-- Claim C1, corrected.  The reference `calc_internal_ror` never inspects
the solver's convergence flag: for every solver and non-empty series it
returns `Except.ok` of the solver's final iterate `soln.x[0]`, whether or
not the solve converged.  A convergence failure is not propagated. -/
theorem calcInternalRor_returns_iterate (solver : Solver) (s : List CashFlow)
    (hne : s ≠ []) :
    calcInternalRor solver s = .ok (solver (fObjective (sortFlows s)) 6).x :=
  calcInternalRor_eq hne solver

/-- Witness for claim C1's amended theorem at a concrete one-row series
and a concrete non-converging solver. -/
theorem calcInternalRor_returns_iterate_witness :
    ([(⟨0, -120⟩ : CashFlow)] ≠ []) ∧
    calcInternalRor ((fun _ x0 => ⟨x0, false⟩) : Solver) [⟨0, -120⟩] =
      .ok (((fun _ x0 => (⟨x0, false⟩ : RootResult)) : Solver)
        (fObjective (sortFlows [⟨0, -120⟩])) 6).x :=
  ⟨by decide, calcInternalRor_returns_iterate _ _ (by decide)⟩

/-- Counterexample to claim C1 as stated: a solver that reports
non-convergence (`success = false`) with final iterate 42; on a two-flow
series `calc_internal_ror` silently returns that unconverged iterate
instead of propagating a convergence error. -/
theorem calcInternalRor_unconverged_counterexample :
    (((fun _ _ => (⟨42, false⟩ : RootResult)) : Solver)
      (fObjective (sortFlows [⟨0, -120⟩, ⟨31557600, 100⟩])) 6).success = false ∧
    calcInternalRor ((fun _ _ => ⟨42, false⟩) : Solver) [⟨0, -120⟩, ⟨31557600, 100⟩] =
      .ok 42 :=
  ⟨rfl, rfl⟩

/-- Claim C2, confirmed.  For every non-empty series and every discount
rate, `calc_npv` returns the sum over all flows of the per-flow
discounted value, with `years_delta` the seconds elapsed from the
earliest timestamp divided by `365.25 * 86400` and rounded to two
decimals, and the per-flow value the raw amount when
`1 + rate/100 == 0` and `amount / (1 + rate/100) ^ years_delta`
otherwise (`specNpv` is that formula verbatim, summed in input order
over the earliest timestamp of the whole series). -/
theorem calcNpv_formula (s : List CashFlow) (d : ℝ) (hne : s ≠ []) :
    calcNpv s d = .ok (specNpv s d) :=
  calcNpv_eq_specNpv hne d

/-- Witness for claim C2's theorem at a concrete two-flow series. -/
theorem calcNpv_formula_witness :
    ([(⟨31557600, 100⟩ : CashFlow), ⟨0, -120⟩] ≠ []) ∧
    calcNpv [⟨31557600, 100⟩, ⟨0, -120⟩] 6 =
      .ok (specNpv [⟨31557600, 100⟩, ⟨0, -120⟩] 6) :=
  ⟨by decide, calcNpv_formula _ _ (by decide)⟩

/-- Claim C4, confirmed.  For every non-empty index and target time,
`return_closest_time` raises the out-of-range error exactly when the
target is strictly before the minimum timestamp or strictly after the
maximum; a target inside the closed span (boundaries included) returns
a row. -/
theorem returnClosestTime_range_check (idx : List PricePoint) (t : ℤ) (hne : idx ≠ []) :
    ((returnClosestTime idx t = .error .lookupOutOfRange) ↔
      (t < colMin (idx.map (·.datetime)) ∨ colMax (idx.map (·.datetime)) < t)) ∧
    ((∃ p, returnClosestTime idx t = .ok p) ↔
      (colMin (idx.map (·.datetime)) ≤ t ∧ t ≤ colMax (idx.map (·.datetime)))) := by
  constructor
  · constructor
    · intro herr
      by_contra hout
      push_neg at hout
      rcases hout with ⟨h1, h2⟩
      rcases returnClosestTime_ok_of_mem_span hne h1 h2 with ⟨p, hp, _, _, _⟩
      rw [hp] at herr
      cases herr
    · exact returnClosestTime_err_of_outside hne
  · constructor
    · rintro ⟨p, hp⟩
      by_contra hout
      have hor : t < colMin (idx.map (·.datetime)) ∨ colMax (idx.map (·.datetime)) < t := by
        rcases not_and_or.mp hout with h | h
        · exact Or.inl (not_le.mp h)
        · exact Or.inr (not_le.mp h)
      rw [returnClosestTime_err_of_outside hne hor] at hp
      cases hp
    · rintro ⟨h1, h2⟩
      rcases returnClosestTime_ok_of_mem_span hne h1 h2 with ⟨p, hp, _, _, _⟩
      exact ⟨p, hp⟩

/-- Witness for claim C4's theorem at a concrete index with the target
equal to the minimum timestamp. -/
theorem returnClosestTime_range_check_witness :
    ([(⟨0, 1⟩ : PricePoint), ⟨100, 2⟩] ≠ []) ∧
    (((returnClosestTime [⟨0, 1⟩, ⟨100, 2⟩] 0 = .error .lookupOutOfRange) ↔
      ((0 : ℤ) < colMin ([(⟨0, 1⟩ : PricePoint), ⟨100, 2⟩].map (·.datetime)) ∨
        colMax ([(⟨0, 1⟩ : PricePoint), ⟨100, 2⟩].map (·.datetime)) < 0)) ∧
    ((∃ p, returnClosestTime [⟨0, 1⟩, ⟨100, 2⟩] 0 = .ok p) ↔
      (colMin ([(⟨0, 1⟩ : PricePoint), ⟨100, 2⟩].map (·.datetime)) ≤ 0 ∧
        (0 : ℤ) ≤ colMax ([(⟨0, 1⟩ : PricePoint), ⟨100, 2⟩].map (·.datetime))))) :=
  ⟨by decide, returnClosestTime_range_check _ _ (by decide)⟩

/-- Claim C5, confirmed.  For every index (sorted or not — the function
sorts a working copy itself) and every target inside the span,
`return_closest_time` returns a row of the index minimizing the absolute
distance to the target, and any equidistant row has a timestamp no
smaller than the returned one (ties resolve to the earlier
timestamp). -/
theorem returnClosestTime_nearest (idx : List PricePoint) (t : ℤ) (hne : idx ≠ [])
    (h1 : colMin (idx.map (·.datetime)) ≤ t) (h2 : t ≤ colMax (idx.map (·.datetime))) :
    ∃ p, returnClosestTime idx t = .ok p ∧ p ∈ idx ∧
      (∀ q ∈ idx, |p.datetime - t| ≤ |q.datetime - t|) ∧
      (∀ q ∈ idx, |q.datetime - t| = |p.datetime - t| → p.datetime ≤ q.datetime) :=
  returnClosestTime_ok_of_mem_span hne h1 h2

/-- Witness for claim C5's theorem on an unsorted two-row index with
the target equidistant from both rows: the returned row is the earlier
one. -/
theorem returnClosestTime_nearest_witness :
    ([(⟨2160000, 20⟩ : PricePoint), ⟨1987200, 10⟩] ≠ []) ∧
    colMin ([(⟨2160000, 20⟩ : PricePoint), ⟨1987200, 10⟩].map (·.datetime)) ≤ 2073600 ∧
    (2073600 : ℤ) ≤ colMax ([(⟨2160000, 20⟩ : PricePoint), ⟨1987200, 10⟩].map (·.datetime)) ∧
    (∃ p, returnClosestTime [⟨2160000, 20⟩, ⟨1987200, 10⟩] 2073600 = .ok p ∧
      p ∈ [(⟨2160000, 20⟩ : PricePoint), ⟨1987200, 10⟩] ∧
      (∀ q ∈ [(⟨2160000, 20⟩ : PricePoint), ⟨1987200, 10⟩],
        |p.datetime - 2073600| ≤ |q.datetime - 2073600|) ∧
      (∀ q ∈ [(⟨2160000, 20⟩ : PricePoint), ⟨1987200, 10⟩],
        |q.datetime - 2073600| = |p.datetime - 2073600| → p.datetime ≤ q.datetime)) :=
  ⟨by decide, by decide, by decide,
    returnClosestTime_nearest _ _ (by decide) (by decide) (by decide)⟩

/-- Claim C6, corrected.  `calc_npv` does have an error condition: on
the empty series it fails (the row-0 timestamp access raises) for every
discount rate; on a single-flow series it returns that flow's amount
for every discount rate, as claimed. -/
theorem calcNpv_degenerate :
    (∀ d : ℝ, calcNpv [] d = .error .emptyFrame) ∧
    (∀ (f : CashFlow) (d : ℝ), calcNpv [f] d = .ok (f.flows : ℝ)) := by
  constructor
  · intro d
    rfl
  · intro f d
    have h : sortFlows [f] = [f] := rfl
    simp only [calcNpv, h, List.map_cons, List.map_nil, List.sum_cons, List.sum_nil, add_zero]
    congr 1
    unfold perFlow
    split_ifs with hb
    · rfl
    · rw [yearsDelta_self]
      push_cast
      rw [Real.rpow_zero, div_one]

/-- Counterexample to claim C6 as stated: at discount rate 5 the empty
series produces the empty-frame error, not the value 0. -/
theorem calcNpv_empty_counterexample :
    calcNpv [] 5 = .error .emptyFrame ∧ calcNpv [] 5 ≠ .ok 0 := by
  refine ⟨rfl, ?_⟩
  intro h
  rw [show calcNpv [] 5 = .error .emptyFrame from rfl] at h
  cases h

/-- Claim C7, confirmed.  `calc_npv` is invariant under any permutation
of the input rows, at every discount rate (on empty input both sides
fail identically). -/
theorem calcNpv_perm_invariant (s s2 : List CashFlow) (d : ℝ) (h : List.Perm s s2) :
    calcNpv s d = calcNpv s2 d := by
  rcases eq_or_ne s [] with rfl | hne
  · rw [h.symm.eq_nil]
  · have hne2 : s2 ≠ [] := by
      intro h2
      rw [h2] at h
      exact hne h.eq_nil
    rw [calcNpv_eq_specNpv hne d, calcNpv_eq_specNpv hne2 d,
      specNpv_congr_perm h d]

/-- Witness for claim C7's theorem on a concrete two-row series and its
swap. -/
theorem calcNpv_perm_invariant_witness :
    List.Perm [(⟨0, -120⟩ : CashFlow), ⟨31557600, 100⟩] [⟨31557600, 100⟩, ⟨0, -120⟩] ∧
    calcNpv [⟨0, -120⟩, ⟨31557600, 100⟩] 6 = calcNpv [⟨31557600, 100⟩, ⟨0, -120⟩] 6 :=
  ⟨List.Perm.swap _ _ _, calcNpv_perm_invariant _ _ _ (List.Perm.swap _ _ _)⟩

lemma specModifiedIrr_eq {s : List CashFlow} {o e : CashFlow} (solver : Solver)
    (ho : (outflows (sortFlows s)).head? = some o)
    (he : (inflows (sortFlows s)).getLast? = some e) :
    specModifiedIrr solver s =
      calcInternalRor solver
        [⟨o.datetime, ((outflows (sortFlows s)).map (·.flows)).sum⟩,
         ⟨e.datetime, ((inflows (sortFlows s)).map (·.flows)).sum⟩] := by
  cases hout : outflows (sortFlows s) with
  | nil => rw [hout] at ho; cases ho
  | cons o2 os =>
    rw [hout, List.head?_cons, Option.some.injEq] at ho
    subst ho
    simp only [specModifiedIrr, hout, he, neg_mul, one_mul, neg_neg]

lemma specNpv_pair_100 {t0 t1 : ℤ} {a b : ℚ} {n : ℕ}
    (hmin : colMin [t0, t1] = t0)
    (hy : yearsDelta t0 t1 = n) :
    specNpv [⟨t0, a⟩, ⟨t1, b⟩] 100 = (a : ℝ) + (b : ℝ) / 2 ^ n := by
  unfold specNpv
  simp only [List.map_cons, List.map_nil]
  rw [show colMin [(⟨t0, a⟩ : CashFlow).datetime, (⟨t1, b⟩ : CashFlow).datetime] = t0
    from hmin]
  simp only [List.sum_cons, List.sum_nil, add_zero]
  unfold perFlow
  rw [if_neg (by norm_num : ¬((1:ℝ) + 100 / 100 = 0))]
  simp only [yearsDelta_self, hy]
  push_cast
  rw [Real.rpow_zero, div_one, Real.rpow_natCast]
  norm_num

/-- Claim C3, corrected by adding the hypothesis that the input series
is already sorted chronologically.  Then `calc_modified_irr` returns the
IRR of the two-point series whose first point carries the timestamp of
the chronologically first outflow and the sum of all outflow amounts
(`= -total_in`), and whose second point carries the timestamp of the
chronologically last inflow and the sum of all inflow amounts.  (The
reference code picks the first/last row of the *unsorted* frame, so for
unsorted input the claim fails; see the counterexample.) -/
theorem calcModifiedIrr_two_point_sorted (solver : Solver) (s : List CashFlow)
    (o e : CashFlow) (hsort : List.Sorted cashFlowLE s)
    (ho : (outflows (sortFlows s)).head? = some o)
    (he : (inflows (sortFlows s)).getLast? = some e) :
    calcModifiedIrr solver s =
      calcInternalRor solver
        [⟨o.datetime, ((outflows (sortFlows s)).map (·.flows)).sum⟩,
         ⟨e.datetime, ((inflows (sortFlows s)).map (·.flows)).sum⟩] := by
  rw [sortFlows_eq_self hsort] at ho he ⊢
  exact calcModifiedIrr_eq solver ho he

/-- Witness for claim C3's amended theorem on a concrete sorted
two-flow series. -/
theorem calcModifiedIrr_two_point_sorted_witness :
    List.Sorted cashFlowLE [(⟨0, -120⟩ : CashFlow), ⟨31557600, 100⟩] ∧
    (outflows (sortFlows [(⟨0, -120⟩ : CashFlow), ⟨31557600, 100⟩])).head?
      = some ⟨0, -120⟩ ∧
    (inflows (sortFlows [(⟨0, -120⟩ : CashFlow), ⟨31557600, 100⟩])).getLast?
      = some ⟨31557600, 100⟩ ∧
    calcModifiedIrr ((fun _ x0 => ⟨x0, true⟩) : Solver) [⟨0, -120⟩, ⟨31557600, 100⟩] =
      calcInternalRor ((fun _ x0 => ⟨x0, true⟩) : Solver)
        [⟨(⟨0, -120⟩ : CashFlow).datetime,
          ((outflows (sortFlows [(⟨0, -120⟩ : CashFlow), ⟨31557600, 100⟩])).map
            (·.flows)).sum⟩,
         ⟨(⟨31557600, 100⟩ : CashFlow).datetime,
          ((inflows (sortFlows [(⟨0, -120⟩ : CashFlow), ⟨31557600, 100⟩])).map
            (·.flows)).sum⟩] :=
  ⟨by decide, by with_unfolding_all rfl, by with_unfolding_all rfl,
    calcModifiedIrr_two_point_sorted _ _ _ _ (by decide)
      (by with_unfolding_all rfl) (by with_unfolding_all rfl)⟩

/-- Counterexample to claim C3 as stated: on an unsorted series whose
positionally-first outflow is not the chronologically first one,
`calc_modified_irr` differs from the chronological two-point collapse
(`specModifiedIrr`, the claim's formula): probing both with the solver
that evaluates NPV at rate 100 yields -2 versus -13/2. -/
theorem calcModifiedIrr_chronology_counterexample :
    calcModifiedIrr ((fun f _ => ⟨f 100, true⟩) : Solver)
      [⟨63115200, -4⟩, ⟨0, -4⟩, ⟨94672800, 12⟩] = .ok (-2) ∧
    specModifiedIrr ((fun f _ => ⟨f 100, true⟩) : Solver)
      [⟨63115200, -4⟩, ⟨0, -4⟩, ⟨94672800, 12⟩] = .ok (-13 / 2) ∧
    ((-2 : ℝ) ≠ -13 / 2) := by
  refine ⟨?_, ?_, by norm_num⟩
  · have hhead : (outflows [(⟨63115200, -4⟩ : CashFlow), ⟨0, -4⟩, ⟨94672800, 12⟩]).head?
        = some ⟨63115200, -4⟩ := by with_unfolding_all rfl
    have hlast : (inflows [(⟨63115200, -4⟩ : CashFlow), ⟨0, -4⟩, ⟨94672800, 12⟩]).getLast?
        = some ⟨94672800, 12⟩ := by with_unfolding_all rfl
    rw [calcModifiedIrr_eq ((fun f _ => ⟨f 100, true⟩) : Solver) hhead hlast]
    have hsum1 : ((outflows [(⟨63115200, -4⟩ : CashFlow), ⟨0, -4⟩,
        ⟨94672800, 12⟩]).map (·.flows)).sum = -8 := by with_unfolding_all rfl
    have hsum2 : ((inflows [(⟨63115200, -4⟩ : CashFlow), ⟨0, -4⟩,
        ⟨94672800, 12⟩]).map (·.flows)).sum = 12 := by with_unfolding_all rfl
    rw [hsum1, hsum2]
    rw [calcInternalRor_eq (by decide) _]
    show Except.ok (fObjective (sortFlows [⟨63115200, -8⟩, ⟨94672800, 12⟩]) 100)
      = Except.ok (-2 : ℝ)
    rw [fObjective_eq_specNpv (sortFlows_ne_nil (by decide)) 100,
      specNpv_congr_perm (sortFlows_perm _) 100,
      specNpv_pair_100 (n := 1) (by decide) (by with_unfolding_all rfl)]
    norm_num
  · have hs : sortFlows [(⟨63115200, -4⟩ : CashFlow), ⟨0, -4⟩, ⟨94672800, 12⟩]
        = [⟨0, -4⟩, ⟨63115200, -4⟩, ⟨94672800, 12⟩] := by with_unfolding_all rfl
    have hhead : (outflows (sortFlows [(⟨63115200, -4⟩ : CashFlow), ⟨0, -4⟩,
        ⟨94672800, 12⟩])).head? = some ⟨0, -4⟩ := by
      rw [hs]
      with_unfolding_all rfl
    have hlast : (inflows (sortFlows [(⟨63115200, -4⟩ : CashFlow), ⟨0, -4⟩,
        ⟨94672800, 12⟩])).getLast? = some ⟨94672800, 12⟩ := by
      rw [hs]
      with_unfolding_all rfl
    rw [specModifiedIrr_eq ((fun f _ => ⟨f 100, true⟩) : Solver) hhead hlast, hs]
    have hsum1 : ((outflows [(⟨0, -4⟩ : CashFlow), ⟨63115200, -4⟩,
        ⟨94672800, 12⟩]).map (·.flows)).sum = -8 := by with_unfolding_all rfl
    have hsum2 : ((inflows [(⟨0, -4⟩ : CashFlow), ⟨63115200, -4⟩,
        ⟨94672800, 12⟩]).map (·.flows)).sum = 12 := by with_unfolding_all rfl
    rw [hsum1, hsum2]
    rw [calcInternalRor_eq (by decide) _]
    show Except.ok (fObjective (sortFlows [⟨0, -8⟩, ⟨94672800, 12⟩]) 100)
      = Except.ok (-13 / 2 : ℝ)
    rw [fObjective_eq_specNpv (sortFlows_ne_nil (by decide)) 100,
      specNpv_congr_perm (sortFlows_perm _) 100,
      specNpv_pair_100 (n := 3) (by decide) (by with_unfolding_all rfl)]
    norm_num

/-- Claim C8, confirmed.  With a non-empty offset list and all lookups
resolvable, `create_flows` produces one investment row per offset with
flow amount `-(invest_amount / count(offsets))` and share count the
per-leg amount divided by that row's looked-up price, followed by a
single divestment row at the nearest date to
`resolved_begin + divest_offset_days` whose share count is the negated
sum of the investment shares and whose flow amount is the total shares
times the price at that date. -/
theorem createFlows_rows (amt : ℚ) (idx rows : List PricePoint) (b e : PricePoint)
    (t out : ℤ) (offs : List ℤ)
    (hb : returnClosestTime idx t = .ok b)
    (hrows : lookupRows idx b.datetime offs = .ok rows)
    (hoffs : offs ≠ [])
    (he : returnClosestTime idx (b.datetime + out * 86400) = .ok e) :
    createFlows idx amt t offs out = .ok
      ((rows.map fun p => ⟨p.datetime, p.adj_close, (amt / offs.length) / p.adj_close,
          -(amt / offs.length)⟩) ++
        [⟨e.datetime, e.adj_close,
          -((rows.map fun p => (amt / offs.length) / p.adj_close).sum),
          ((rows.map fun p => (amt / offs.length) / p.adj_close).sum) * e.adj_close⟩]) :=
  createFlows_eq amt hb hrows hoffs he

/-- Witness for claim C8's theorem on a concrete two-row index with a
single offset. -/
theorem createFlows_rows_witness :
    (returnClosestTime [⟨0, 10⟩, ⟨34560000, 20⟩] 0 = .ok ⟨0, 10⟩) ∧
    (lookupRows [⟨0, 10⟩, ⟨34560000, 20⟩] (⟨0, 10⟩ : PricePoint).datetime [0]
      = .ok [⟨0, 10⟩]) ∧
    (([0] : List ℤ) ≠ []) ∧
    (returnClosestTime [⟨0, 10⟩, ⟨34560000, 20⟩]
      ((⟨0, 10⟩ : PricePoint).datetime + 400 * 86400) = .ok ⟨34560000, 20⟩) ∧
    createFlows [⟨0, 10⟩, ⟨34560000, 20⟩] 100 0 [0] 400 =
      .ok [⟨0, 10, 10, -100⟩, ⟨34560000, 20, -10, 200⟩] :=
  ⟨by with_unfolding_all rfl, by with_unfolding_all rfl, by decide,
    by with_unfolding_all rfl,
    (createFlows_rows 100 _ _ _ _ _ _ _ (by with_unfolding_all rfl)
      (by with_unfolding_all rfl) (by decide) (by with_unfolding_all rfl)).trans
      (by with_unfolding_all rfl)⟩

/-- Claim C9, corrected: the horizon window is the Python
`int(horizon * 365.25)` truncation (in days), not the real-valued
`horizon * 365.25`; provided that truncated window is at least one day,
the offsets are non-empty and lie within `[0, window]`, the index is
sorted with positive prices, `rolling_rate_of_return` records exactly
one `(date, rate)` pair, in index order, for every sample date `d` with
`d + window ≤ last index date`, each rate the modified IRR of the flow
series synthesized at `d` (invest 100 with the given offsets, divest
after the window), and records nothing for any later date. -/
theorem rollingRateOfReturn_spec (solver : Solver) (idx : List PricePoint)
    (offs : List ℤ) (label : String) (horizon : ℚ)
    (hne : idx ≠ [])
    (hpw : List.Pairwise priceLE idx)
    (hpos : ∀ p ∈ idx, 0 < p.adj_close)
    (hw : 1 ≤ pyInt (horizon * (1461 / 4)))
    (hoffs : offs ≠ [])
    (hbound : ∀ o ∈ offs, 0 ≤ o ∧ o ≤ pyInt (horizon * (1461 / 4))) :
    ∃ pairs, rollingRateOfReturn solver idx offs label horizon = .ok pairs ∧
      pairs.map Prod.fst =
        (idx.filter (fun p =>
          p.datetime + pyInt (horizon * (1461 / 4)) * 86400 ≤ lastDate idx)).map
          (·.datetime) ∧
      ∀ pr ∈ pairs, ∃ fr,
        createFlows idx 100 pr.1 offs (pyInt (horizon * (1461 / 4))) = .ok fr ∧
        calcModifiedIrr solver (fr.map CashFlowRow.toCashFlow) = .ok pr.2 := by
  cases idx with
  | nil => exact absurd rfl hne
  | cons first rest =>
    have h := rollLoop_spec solver hpw hpos hw hoffs hbound rest first ⟨[], rfl⟩
    simpa only [rollingRateOfReturn] using h

/-- Witness for claim C9's amended theorem on a concrete two-row index
with a one-year horizon. -/
theorem rollingRateOfReturn_spec_witness :
    (([(⟨0, 1⟩ : PricePoint), ⟨31536000, 1⟩] : List PricePoint) ≠ []) ∧
    List.Pairwise priceLE [(⟨0, 1⟩ : PricePoint), ⟨31536000, 1⟩] ∧
    (∀ p ∈ [(⟨0, 1⟩ : PricePoint), ⟨31536000, 1⟩], 0 < p.adj_close) ∧
    (1 ≤ pyInt ((1 : ℚ) * (1461 / 4))) ∧
    (([0] : List ℤ) ≠ []) ∧
    (∀ o ∈ ([0] : List ℤ), 0 ≤ o ∧ o ≤ pyInt ((1 : ℚ) * (1461 / 4))) ∧
    (∃ pairs, rollingRateOfReturn ((fun _ x0 => ⟨x0, true⟩) : Solver)
        [⟨0, 1⟩, ⟨31536000, 1⟩] [0] "idx" 1 = .ok pairs ∧
      pairs.map Prod.fst =
        (([(⟨0, 1⟩ : PricePoint), ⟨31536000, 1⟩]).filter (fun p =>
          p.datetime + pyInt ((1 : ℚ) * (1461 / 4)) * 86400 ≤
            lastDate [⟨0, 1⟩, ⟨31536000, 1⟩])).map (·.datetime) ∧
      ∀ pr ∈ pairs, ∃ fr,
        createFlows [⟨0, 1⟩, ⟨31536000, 1⟩] 100 pr.1 [0]
          (pyInt ((1 : ℚ) * (1461 / 4))) = .ok fr ∧
        calcModifiedIrr ((fun _ x0 => ⟨x0, true⟩) : Solver)
          (fr.map CashFlowRow.toCashFlow) = .ok pr.2) := by
  have hpy : pyInt ((1 : ℚ) * (1461 / 4)) = 365 := by with_unfolding_all rfl
  refine ⟨by decide, by decide, by decide, by rw [hpy]; norm_num, by decide, ?_, ?_⟩
  · intro o ho
    rcases List.mem_singleton.mp ho with rfl
    exact ⟨le_refl 0, by rw [hpy]; norm_num⟩
  · exact rollingRateOfReturn_spec _ _ _ _ _ (by decide) (by decide) (by decide)
      (by rw [hpy]; norm_num) (by decide)
      (fun o ho => by
        rcases List.mem_singleton.mp ho with rfl
        exact ⟨le_refl 0, by rw [hpy]; norm_num⟩)

/-- Counterexample to claim C9 as stated: with dates 0 and 365 days and
`horizon = 1`, the code records a pair for date 0 (the truncated window
of 365 days fits), although date 0 does not satisfy the claim's
real-valued condition `d + 1 * 365.25 days ≤ last date`. -/
theorem rollingRateOfReturn_window_counterexample :
    rollingRateOfReturn ((fun _ x0 => ⟨x0, true⟩) : Solver)
      [⟨0, 1⟩, ⟨31536000, 1⟩] [0] "idx" 1 = .ok [(0, 6)] ∧
    ¬((0 : ℚ) + 1 * (1461 / 4) * 86400 ≤ ((31536000 : ℤ) : ℚ)) := by
  constructor
  · with_unfolding_all rfl
  · norm_num

/-- Claim C10, corrected: when the truncated horizon window is zero
days (so every sample date satisfies the loop condition) and each
iteration's flow synthesis succeeds (positive prices, zero offsets),
the loop of `rolling_rate_of_return` advances its row position past the
final row and fails with the out-of-bounds row access instead of
terminating cleanly.  (For a negative horizon the claim's premise also
holds, but the run dies earlier inside the nearest-date lookup; see the
counterexample.) -/
theorem rollingRateOfReturn_oob (solver : Solver) (idx : List PricePoint)
    (offs : List ℤ) (label : String) (horizon : ℚ)
    (hne : idx ≠ [])
    (hpw : List.Pairwise priceLE idx)
    (hpos : ∀ p ∈ idx, 0 < p.adj_close)
    (hw : pyInt (horizon * (1461 / 4)) = 0)
    (hoffs : offs ≠ [])
    (hzero : ∀ o ∈ offs, o = 0) :
    rollingRateOfReturn solver idx offs label horizon = .error .loopIndexOOB := by
  cases idx with
  | nil => exact absurd rfl hne
  | cons first rest =>
    have h := rollLoop_oob solver hpw hpos hoffs hzero rest first ⟨[], rfl⟩
    simp only [rollingRateOfReturn, hw]
    exact h

/-- Witness for claim C10's amended theorem on a concrete two-row index
with horizon 0. -/
theorem rollingRateOfReturn_oob_witness :
    (([(⟨0, 1⟩ : PricePoint), ⟨86400, 1⟩] : List PricePoint) ≠ []) ∧
    List.Pairwise priceLE [(⟨0, 1⟩ : PricePoint), ⟨86400, 1⟩] ∧
    (∀ p ∈ [(⟨0, 1⟩ : PricePoint), ⟨86400, 1⟩], 0 < p.adj_close) ∧
    (pyInt ((0 : ℚ) * (1461 / 4)) = 0) ∧
    (([0] : List ℤ) ≠ []) ∧
    (∀ o ∈ ([0] : List ℤ), o = 0) ∧
    rollingRateOfReturn ((fun _ x0 => ⟨x0, true⟩) : Solver)
      [⟨0, 1⟩, ⟨86400, 1⟩] [0] "x" 0 = .error .loopIndexOOB :=
  ⟨by decide, by decide, by decide, by with_unfolding_all rfl, by decide,
    by decide,
    rollingRateOfReturn_oob _ _ _ _ _ (by decide) (by decide) (by decide)
      (by with_unfolding_all rfl) (by decide) (by decide)⟩

/-- Counterexample to claim C10 as stated: on a one-row index with
`horizon = -1` every sample date satisfies `d + window ≤ last date`,
yet the run fails with the lookup's out-of-range error (raised while
synthesizing flows), not with the out-of-bounds row access the claim
asserts. -/
theorem rollingRateOfReturn_horizon_counterexample :
    ((0 : ℤ) + pyInt ((-1 : ℚ) * (1461 / 4)) * 86400 ≤ lastDate [⟨0, 1⟩]) ∧
    rollingRateOfReturn ((fun _ x0 => ⟨x0, true⟩) : Solver) [⟨0, 1⟩] [0] "x" (-1) =
      .error .lookupOutOfRange ∧
    Err.lookupOutOfRange ≠ Err.loopIndexOOB := by
  refine ⟨?_, by with_unfolding_all rfl, by decide⟩
  rw [show pyInt ((-1 : ℚ) * (1461 / 4)) = -365 from by with_unfolding_all rfl]
  decide
